import Mathlib

/-!
Verification of `internal/language/proto/gen/gen_known_imports.go`.

The program is a one-shot code generator: it parses CSV rows (Go
`encoding/csv` with `Comment = '#'` and `FieldsPerRecord = 4`), builds an
ordered, de-duplicated list of (import, label) bindings, renders a fixed
text template, and writes the result.  The embedding below follows `run`
line by line; the external label parser (`internal/label`, not part of the
sources here) is kept abstract as a function parameter, and the file I/O
performed by `run` is made explicit as an event trace.
-/

set_option autoImplicit false

namespace GenKnownImports

deriving instance DecidableEq for Except

/-- Modelled from the spec: the data model of `internal/label.Label`, which is
not among the sources — "a structured reference consisting of a repository
identifier, a package path, and a target name". -/
structure Label where
  repo : String
  pkg : String
  name : String
deriving DecidableEq

/-- Modelled from the spec: `internal/label.Label.Equal`, not among the
sources — "Equality is structural (repo, pkg, name all equal)". -/
def Label.Equal (a b : Label) : Bool :=
  a.repo == b.repo && a.pkg == b.pkg && a.name == b.name

theorem Label.Equal_iff_eq (a b : Label) : Label.Equal a b = true ↔ a = b := by
  cases a; cases b
  simp [Label.Equal, Label.mk.injEq, and_assoc]

/-- Splits one line at commas; `acc` holds the current field reversed. -/
def splitCommaAux : List Char → List Char → List String
  | [], acc => [String.mk acc.reverse]
  | c :: cs, acc =>
    if c = ',' then String.mk acc.reverse :: splitCommaAux cs []
    else splitCommaAux cs (c :: acc)

/-- Field splitting of one CSV line, Go `encoding/csv` with the default comma
separator.  Quoted fields are not modelled: neither `proto.csv` nor any
property below involves a double quote. -/
def splitFields (line : String) : List String :=
  splitCommaAux line.toList []

/-- Go `encoding/csv` with `r.Comment = '#'`: a line is a comment iff its very
first rune is `#` — with any preceding whitespace the line is ordinary data
(`csv.Reader.Comment` documentation: "Lines beginning with the Comment
character without preceding whitespace are ignored"). -/
def isCommentLine (line : String) : Bool :=
  match line.toList with
  | [] => false
  | c :: _ => c = '#'

/-- The error `csv.Reader.ReadAll` reports for a record whose field count
differs from `FieldsPerRecord = 4`. -/
inductive CsvError where
  | fieldCount (line : String) (got : Nat)
deriving DecidableEq

/-- `r.ReadAll()` over the input lines, with `Comment = '#'` and
`FieldsPerRecord = 4`: comment lines and blank lines are skipped, every other
line must split into exactly 4 fields, and the first offending line aborts
the whole read. -/
def readAll : List String → Except CsvError (List (List String))
  | [] => .ok []
  | l :: rest =>
    if isCommentLine l then readAll rest
    else if l = "" then readAll rest
    else if (splitFields l).length = 4 then
      match readAll rest with
      | .ok rs => .ok (splitFields l :: rs)
      | .error e => .error e
    else .error (.fieldCount l (splitFields l).length)

/-- `rec[i]` on a Go slice: a valid index yields the element, any other index
(negative or past the end) panics, which the embedding reports as `none`. -/
def recGet (rec : List String) (i : Int) : Option String :=
  if i < 0 then none else rec.get? i.toNat

/-- One entry of `data.Bindings`: the Go struct `binding{Import, Label}`. -/
structure Binding where
  imp : String
  lbl : Label
deriving DecidableEq

/-- The errors `run` can return, by stage. -/
inductive RunError where
  | flagNotSet (flag : String)
  | openErr
  | csvErr (e : CsvError)
  | labelParseErr (msg : String)
  | conflict (key : String) (seenLabel newLabel : Label)
deriving DecidableEq

/-- Result of a stage or of the whole run: a value, a returned error, or a Go
panic (index out of range). -/
inductive Outcome (α : Type) where
  | ok (a : α)
  | err (e : RunError)
  | panic
deriving DecidableEq

/-- The `seen` map of `run`, as an association list; only fresh keys are ever
inserted, so the first hit is the binding Go's map would return. -/
def lookupSeen : List (String × Label) → String → Option Label
  | [], _ => none
  | (k, v) :: rest, key => if k = key then some v else lookupSeen rest key

/-- The loop of `run` over `records`: `imp := rec[keyColumn]`, then
`label.Parse(rec[valueColumn])` (the index is evaluated before the call, so
an out-of-range column panics before any parse error), then the `seen`
duplicate check, then append.  `parse` stands for `label.Parse`. -/
def buildLoop (parse : String → Except String Label) (key value : Int) :
    List (List String) → List (String × Label) → List Binding → Outcome (List Binding)
  | [], _, acc => .ok acc
  | rec :: rest, seen, acc =>
    match recGet rec key with
    | none => .panic
    | some imp =>
      match recGet rec value with
      | none => .panic
      | some v =>
        match parse v with
        | .error e => .err (.labelParseErr e)
        | .ok lbl =>
          match lookupSeen seen imp with
          | some seenLabel =>
            if Label.Equal seenLabel lbl then buildLoop parse key value rest seen acc
            else .err (.conflict imp seenLabel lbl)
          | none => buildLoop parse key value rest ((imp, lbl) :: seen) (acc ++ [⟨imp, lbl⟩])

/-- Modelled from the spec: `internal/label.Parse` is not among the sources;
the spec fixes only its contract ("given a syntactically valid label string,
returns a Label with matching repo/pkg/name; given an invalid string, fails
with an error identifying the malformed input").  We model the canonical
written form `@repo//pkg:name` and reject anything else, naming the input in
the error.  Used only to instantiate the abstract `parse` parameter. -/
def specLabelParse (s : String) : Except String Label :=
  match s.toList with
  | '@' :: rest =>
    match splitRepo rest with
    | some (repoCs, pkgName) =>
      match splitColon pkgName with
      | some (pkgCs, nameCs) => .ok ⟨String.mk repoCs, String.mk pkgCs, String.mk nameCs⟩
      | none => .error ("label parse error: " ++ s)
    | none => .error ("label parse error: " ++ s)
  | _ => .error ("label parse error: " ++ s)
where
  splitRepo : List Char → Option (List Char × List Char)
    | [] => none
    | '/' :: '/' :: rest => some ([], rest)
    | c :: cs => (splitRepo cs).map fun p => (c :: p.1, p.2)
  splitColon : List Char → Option (List Char × List Char)
    | [] => none
    | c :: cs =>
      if c = ':' then some ([], cs)
      else (splitColon cs).map fun p => (c :: p.1, p.2)

/-- The resolved command-line flags of `run` (`fs.Parse` has already filled
the defaults `-key 0 -value 1` when the flags are absent). -/
structure Config where
  protoCsv : String
  knownImports : String
  package_ : String
  var_ : String
  key : Int
  value : Int
deriving DecidableEq

/-- The `data` struct handed to the template. -/
structure Data where
  protoCsv : String
  package_ : String
  var_ : String
  bindings : List Binding
deriving DecidableEq

/-- Go `%q` on the strings appearing here (none of which needs an escape):
the string in double quotes. -/
def goQuote (s : String) : String :=
  "\"" ++ s ++ "\""

/-- One iteration of the template's `range .Bindings`. -/
def renderBinding (b : Binding) : String :=
  "\n\t" ++ goQuote b.imp ++ ": label.New(" ++ goQuote b.lbl.repo ++ ", "
    ++ goQuote b.lbl.pkg ++ ", " ++ goQuote b.lbl.name ++ "),"

/-- `knownImportsTpl.Execute` on `data`: a fixed template over the fields of
`data`, a pure function of its input.  (The braces of the Go source are
written with escapes; the byte-level whitespace of `text/template` is not
load-bearing for any property below.) -/
def render (d : Data) : String :=
  "\n// Generated by internal/language/proto/gen/gen_known_imports.go\n// From "
    ++ d.protoCsv ++ "\n\npackage " ++ d.package_
    ++ "\n\nimport \"github.com/bazelbuild/bazel-gazelle/internal/label\"\n\nvar "
    ++ d.var_ ++ " = map[string]label.Label\x7b\n"
    ++ String.join (d.bindings.map renderBinding)
    ++ "\n\x7d\n"

/-- The file-system actions `run` performs, in order. -/
inductive Event where
  | openInput
  | readInput
  | closeInput
  | writeOutput (path : String) (contents : String)
deriving DecidableEq

/-- What a run yields: its return value (`.ok` carries the output path and
the rendered bytes handed to `ioutil.WriteFile`) together with the ordered
trace of file-system actions it performed. -/
structure RunResult where
  outcome : Outcome (String × String)
  trace : List Event
deriving DecidableEq

/-- `run(args)` after flag parsing: `cfg` holds the parsed flags, `file` is
the input file (`none` = `os.Open` fails, `some lines` = its lines), `parse`
stands for `label.Parse`.  Stage order is that of the source: required-flag
checks, open, `ReadAll` (followed immediately by `Close` on both paths), the
binding loop, template rendering, `ioutil.WriteFile`. -/
def run (parse : String → Except String Label) (cfg : Config)
    (file : Option (List String)) : RunResult :=
  if cfg.protoCsv = "" then ⟨.err (.flagNotSet ("-proto_csv")), []⟩
  else if cfg.knownImports = "" then ⟨.err (.flagNotSet ("-known_imports")), []⟩
  else if cfg.package_ = "" then ⟨.err (.flagNotSet ("-package")), []⟩
  else if cfg.var_ = "" then ⟨.err (.flagNotSet ("-var")), []⟩
  else
    match file with
    | none => ⟨.err .openErr, []⟩
    | some lines =>
      match readAll lines with
      | .error e => ⟨.err (.csvErr e), [.openInput, .readInput, .closeInput]⟩
      | .ok records =>
        match buildLoop parse cfg.key cfg.value records [] [] with
        | .panic => ⟨.panic, [.openInput, .readInput, .closeInput]⟩
        | .err e => ⟨.err e, [.openInput, .readInput, .closeInput]⟩
        | .ok bs =>
          ⟨.ok (cfg.knownImports, render ⟨cfg.protoCsv, cfg.package_, cfg.var_, bs⟩),
            [.openInput, .readInput, .closeInput,
              .writeOutput cfg.knownImports (render ⟨cfg.protoCsv, cfg.package_, cfg.var_, bs⟩)]⟩

/-- All four required flags are non-empty, i.e. `run` passes its four
validation checks. -/
def flagsSet (cfg : Config) : Prop :=
  cfg.protoCsv ≠ "" ∧ cfg.knownImports ≠ "" ∧ cfg.package_ ≠ "" ∧ cfg.var_ ≠ ""

instance (cfg : Config) : Decidable (flagsSet cfg) := by
  unfold flagsSet; infer_instance

theorem run_open_err (parse : String → Except String Label) (cfg : Config)
    (h : flagsSet cfg) : run parse cfg none = ⟨.err .openErr, []⟩ := by
  obtain ⟨h1, h2, h3, h4⟩ := h
  simp [run, h1, h2, h3, h4]

theorem run_read_err (parse : String → Except String Label) (cfg : Config)
    (lines : List String) (e : CsvError) (h : flagsSet cfg)
    (hr : readAll lines = .error e) :
    run parse cfg (some lines) = ⟨.err (.csvErr e), [.openInput, .readInput, .closeInput]⟩ := by
  obtain ⟨h1, h2, h3, h4⟩ := h
  simp [run, h1, h2, h3, h4, hr]

theorem run_build_err (parse : String → Except String Label) (cfg : Config)
    (lines : List String) (records : List (List String)) (e : RunError)
    (h : flagsSet cfg) (hr : readAll lines = .ok records)
    (hb : buildLoop parse cfg.key cfg.value records [] [] = .err e) :
    run parse cfg (some lines) = ⟨.err e, [.openInput, .readInput, .closeInput]⟩ := by
  obtain ⟨h1, h2, h3, h4⟩ := h
  simp [run, h1, h2, h3, h4, hr, hb]

theorem run_build_panic (parse : String → Except String Label) (cfg : Config)
    (lines : List String) (records : List (List String))
    (h : flagsSet cfg) (hr : readAll lines = .ok records)
    (hb : buildLoop parse cfg.key cfg.value records [] [] = .panic) :
    run parse cfg (some lines) = ⟨.panic, [.openInput, .readInput, .closeInput]⟩ := by
  obtain ⟨h1, h2, h3, h4⟩ := h
  simp [run, h1, h2, h3, h4, hr, hb]

theorem run_ok (parse : String → Except String Label) (cfg : Config)
    (lines : List String) (records : List (List String)) (bs : List Binding)
    (h : flagsSet cfg) (hr : readAll lines = .ok records)
    (hb : buildLoop parse cfg.key cfg.value records [] [] = .ok bs) :
    run parse cfg (some lines) =
      ⟨.ok (cfg.knownImports, render ⟨cfg.protoCsv, cfg.package_, cfg.var_, bs⟩),
        [.openInput, .readInput, .closeInput,
          .writeOutput cfg.knownImports (render ⟨cfg.protoCsv, cfg.package_, cfg.var_, bs⟩)]⟩ := by
  obtain ⟨h1, h2, h3, h4⟩ := h
  simp [run, h1, h2, h3, h4, hr, hb]

/-- The (key column, parsed value column) pair a record denotes: `none` when
an index is out of range or the value fails to parse. -/
def rowParsed (parse : String → Except String Label) (key value : Int)
    (rec : List String) : Option (String × Label) :=
  match recGet rec key with
  | none => none
  | some imp =>
    match recGet rec value with
    | none => none
    | some v =>
      match parse v with
      | .error _ => none
      | .ok lbl => some (imp, lbl)

/-- `rowParsed` over a whole record list (`some` iff every row is clean). -/
def rowsParsed (parse : String → Except String Label) (key value : Int) :
    List (List String) → Option (List (String × Label))
  | [] => some []
  | rec :: rest =>
    match rowParsed parse key value rec with
    | none => none
    | some p =>
      match rowsParsed parse key value rest with
      | none => none
      | some ps => some (p :: ps)

/-- The spec's description of the output bindings, stated independently of the
loop: keep the pairs in input order, dropping any pair whose key was already
retained ("first-occurrence order"). -/
def specFirstOcc (seen : List (String × Label)) :
    List (String × Label) → List (String × Label)
  | [] => []
  | (k, l) :: rest =>
    match lookupSeen seen k with
    | some _ => specFirstOcc seen rest
    | none => (k, l) :: specFirstOcc ((k, l) :: seen) rest

def toBinding (p : String × Label) : Binding :=
  ⟨p.1, p.2⟩

/-- Decidable form of "duplicate keys always carry identical labels". -/
def pairsConsistent (pairs : List (String × Label)) : Bool :=
  pairs.all fun p => pairs.all fun q => decide (p.1 = q.1 → p.2 = q.2)

theorem pairsConsistent_iff (pairs : List (String × Label)) :
    pairsConsistent pairs = true ↔
      ∀ k l1 l2, (k, l1) ∈ pairs → (k, l2) ∈ pairs → l1 = l2 := by
  unfold pairsConsistent
  simp only [List.all_eq_true, decide_eq_true_eq]
  constructor
  · intro h k l1 l2 h1 h2
    exact h (k, l1) h1 (k, l2) h2 rfl
  · intro h p hp q hq hfst
    have hp' : (p.1, p.2) ∈ pairs := by simpa using hp
    have hq' : (p.1, q.2) ∈ pairs := by rw [hfst]; simpa using hq
    exact h p.1 p.2 q.2 hp' hq'

theorem rowParsed_eq_some (parse : String → Except String Label) (key value : Int)
    (rec : List String) (p : String × Label) :
    rowParsed parse key value rec = some p ↔
      ∃ v, recGet rec key = some p.1 ∧ recGet rec value = some v ∧ parse v = .ok p.2 := by
  constructor
  · intro h
    unfold rowParsed at h
    cases hk : recGet rec key with
    | none => simp [hk] at h
    | some imp =>
      cases hv : recGet rec value with
      | none => simp [hk, hv] at h
      | some v =>
        cases hp : parse v with
        | error e => simp [hk, hv, hp] at h
        | ok lbl =>
          simp only [hk, hv, hp] at h
          injection h with h
          subst h
          exact ⟨v, rfl, rfl, hp⟩
  · rintro ⟨v, hk, hv, hp⟩
    simp [rowParsed, hk, hv, hp]

theorem buildLoop_ok_of_consistent (parse : String → Except String Label) (key value : Int)
    (records : List (List String)) (pairs seen : List (String × Label)) (acc : List Binding)
    (hrows : rowsParsed parse key value records = some pairs)
    (hcons : ∀ k l1 l2, (k, l1) ∈ pairs → (k, l2) ∈ pairs → l1 = l2)
    (hseen : ∀ k l1 l2, (k, l1) ∈ pairs → lookupSeen seen k = some l2 → l1 = l2) :
    buildLoop parse key value records seen acc =
      .ok (acc ++ (specFirstOcc seen pairs).map toBinding) := by
  revert hrows hcons hseen
  induction records generalizing pairs seen acc with
  | nil =>
    intro hrows _ _
    unfold rowsParsed at hrows
    injection hrows with h
    subst h
    simp [buildLoop, specFirstOcc]
  | cons rec rest ih =>
    intro hrows hcons hseen
    unfold rowsParsed at hrows
    cases hrow : rowParsed parse key value rec with
    | none => simp [hrow] at hrows
    | some p =>
      cases hrest : rowsParsed parse key value rest with
      | none => simp [hrow, hrest] at hrows
      | some ps =>
        simp only [hrow, hrest] at hrows
        injection hrows with h
        subst h
        obtain ⟨v, hk, hv, hp⟩ := (rowParsed_eq_some parse key value rec p).1 hrow
        obtain ⟨k, l⟩ := p
        have hc1 : ∀ k1 a b, (k1, a) ∈ ps → (k1, b) ∈ ps → a = b :=
          fun k1 a b h1 h2 =>
            hcons k1 a b (List.mem_cons_of_mem _ h1) (List.mem_cons_of_mem _ h2)
        cases hlook : lookupSeen seen k with
        | some l2 =>
          have hl : l = l2 := hseen k l l2 (List.mem_cons_self _ _) hlook
          subst hl
          have heq : Label.Equal l l = true := (Label.Equal_iff_eq l l).mpr rfl
          simp only [buildLoop, hk, hv, hp, hlook, heq, if_true, specFirstOcc]
          exact ih ps seen acc hrest hc1
            (fun k1 a b h1 h2 => hseen k1 a b (List.mem_cons_of_mem _ h1) h2)
        | none =>
          have hs1 : ∀ k1 a b, (k1, a) ∈ ps → lookupSeen ((k, l) :: seen) k1 = some b →
              a = b := by
            intro k1 a b h1 h2
            by_cases hkk : k = k1
            · subst hkk
              simp only [lookupSeen, if_pos rfl] at h2
              injection h2 with h2
              subst h2
              exact hcons k a l (List.mem_cons_of_mem _ h1) (List.mem_cons_self _ _)
            · simp only [lookupSeen, if_neg hkk] at h2
              exact hseen k1 a b (List.mem_cons_of_mem _ h1) h2
          have hrec := ih ps ((k, l) :: seen) (acc ++ [⟨k, l⟩]) hrest hc1 hs1
          simp only [buildLoop, hk, hv, hp, hlook, specFirstOcc, List.map_cons]
          rw [hrec]
          simp [toBinding, List.append_assoc]

theorem specFirstOcc_eq_self (seen pairs : List (String × Label))
    (hmiss : ∀ k l, (k, l) ∈ pairs → lookupSeen seen k = none)
    (hnodup : (pairs.map Prod.fst).Nodup) :
    specFirstOcc seen pairs = pairs := by
  induction pairs generalizing seen with
  | nil => simp [specFirstOcc]
  | cons p rest ih =>
    obtain ⟨k, l⟩ := p
    rw [List.map_cons, List.nodup_cons] at hnodup
    obtain ⟨hknotin, hnd⟩ := hnodup
    have hk : lookupSeen seen k = none := hmiss k l (List.mem_cons_self _ _)
    simp only [specFirstOcc, hk]
    congr 1
    apply ih
    · intro k1 l1 h1
      have hne : k ≠ k1 := by
        intro he
        subst he
        have hm : (k, l1).1 ∈ rest.map Prod.fst := List.mem_map_of_mem Prod.fst h1
        exact hknotin hm
      simp only [lookupSeen, if_neg hne]
      exact hmiss k1 l1 (List.mem_cons_of_mem _ h1)
    · exact hnd

theorem lookupSeen_mem (seen : List (String × Label)) (k : String) (l : Label)
    (h : lookupSeen seen k = some l) : (k, l) ∈ seen := by
  induction seen with
  | nil => simp [lookupSeen] at h
  | cons q rest ih =>
    obtain ⟨k1, v1⟩ := q
    by_cases hkk : k1 = k
    · subst hkk
      simp only [lookupSeen, if_pos rfl] at h
      injection h with h
      subst h
      exact List.mem_cons_self _ _
    · simp only [lookupSeen, if_neg hkk] at h
      exact List.mem_cons_of_mem _ (ih h)

theorem buildLoop_cases (parse : String → Except String Label) (key value : Int)
    (records : List (List String)) (pairs seen P0 : List (String × Label)) (acc : List Binding)
    (hrows : rowsParsed parse key value records = some pairs)
    (hseenSub : ∀ k l, (k, l) ∈ seen → (k, l) ∈ P0)
    (hpairsSub : ∀ p, p ∈ pairs → p ∈ P0) :
    (∃ bs, buildLoop parse key value records seen acc = .ok bs ∧
      (∀ k l1 l2, (k, l1) ∈ pairs → lookupSeen seen k = some l2 → l1 = l2) ∧
      (∀ k l1 l2, (k, l1) ∈ pairs → (k, l2) ∈ pairs → l1 = l2)) ∨
    (∃ k l1 l2, buildLoop parse key value records seen acc = .err (.conflict k l1 l2) ∧
      (k, l1) ∈ P0 ∧ (k, l2) ∈ P0 ∧ l1 ≠ l2) := by
  revert hrows hseenSub hpairsSub
  induction records generalizing pairs seen acc with
  | nil =>
    intro hrows _ _
    unfold rowsParsed at hrows
    injection hrows with h
    subst h
    exact .inl ⟨acc, rfl, by simp, by simp⟩
  | cons rec rest ih =>
    intro hrows hseenSub hpairsSub
    unfold rowsParsed at hrows
    cases hrow : rowParsed parse key value rec with
    | none => simp [hrow] at hrows
    | some p =>
      cases hrest : rowsParsed parse key value rest with
      | none => simp [hrow, hrest] at hrows
      | some ps =>
        simp only [hrow, hrest] at hrows
        injection hrows with h
        subst h
        obtain ⟨v, hk, hv, hp⟩ := (rowParsed_eq_some parse key value rec p).1 hrow
        obtain ⟨k, l⟩ := p
        cases hlook : lookupSeen seen k with
        | some l2 =>
          by_cases heq : Label.Equal l2 l = true
          · have hl : l2 = l := (Label.Equal_iff_eq l2 l).1 heq
            subst hl
            have hstep : buildLoop parse key value (rec :: rest) seen acc =
                buildLoop parse key value rest seen acc := by
              simp [buildLoop, hk, hv, hp, hlook, heq]
            rcases ih ps seen acc hrest hseenSub
                (fun q hq => hpairsSub q (List.mem_cons_of_mem _ hq)) with
              ⟨bs, hb, hsc, hpc⟩ | ⟨k1, a, b, hb, h1, h2, hne⟩
            · refine .inl ⟨bs, hstep.trans hb, ?_, ?_⟩
              · intro k1 a b h1 h2
                rcases List.mem_cons.1 h1 with he | ht
                · obtain ⟨he1, he2⟩ := Prod.mk.injEq .. ▸ he
                  subst he1
                  subst he2
                  rw [hlook] at h2
                  injection h2
                · exact hsc k1 a b ht h2
              · intro k1 a b h1 h2
                rcases List.mem_cons.1 h1 with he | ht <;>
                  rcases List.mem_cons.1 h2 with he2 | ht2
                · obtain ⟨x1, x2⟩ := Prod.mk.injEq .. ▸ he
                  obtain ⟨y1, y2⟩ := Prod.mk.injEq .. ▸ he2
                  rw [x2, y2]
                · obtain ⟨x1, x2⟩ := Prod.mk.injEq .. ▸ he
                  subst x1
                  rw [x2]
                  exact (hsc k1 b l2 ht2 hlook).symm
                · obtain ⟨y1, y2⟩ := Prod.mk.injEq .. ▸ he2
                  subst y1
                  rw [y2]
                  exact hsc k1 a l2 ht hlook
                · exact hpc k1 a b ht ht2
            · exact .inr ⟨k1, a, b, hstep.trans hb, h1, h2, hne⟩
          · have hne : l2 ≠ l := fun he =>
              heq ((Label.Equal_iff_eq l2 l).2 he)
            have hstep : buildLoop parse key value (rec :: rest) seen acc =
                .err (.conflict k l2 l) := by
              simp [buildLoop, hk, hv, hp, hlook, heq]
            exact .inr ⟨k, l2, l, hstep,
              hseenSub k l2 (lookupSeen_mem seen k l2 hlook),
              hpairsSub (k, l) (List.mem_cons_self _ _), hne⟩
        | none =>
          have hstep : buildLoop parse key value (rec :: rest) seen acc =
              buildLoop parse key value rest ((k, l) :: seen) (acc ++ [⟨k, l⟩]) := by
            simp [buildLoop, hk, hv, hp, hlook]
          have hseenSub1 : ∀ k1 a, (k1, a) ∈ (k, l) :: seen → (k1, a) ∈ P0 := by
            intro k1 a h1
            rcases List.mem_cons.1 h1 with he | ht
            · rw [he]
              exact hpairsSub (k, l) (List.mem_cons_self _ _)
            · exact hseenSub k1 a ht
          rcases ih ps ((k, l) :: seen) (acc ++ [⟨k, l⟩]) hrest hseenSub1
              (fun q hq => hpairsSub q (List.mem_cons_of_mem _ hq)) with
            ⟨bs, hb, hsc, hpc⟩ | ⟨k1, a, b, hb, h1, h2, hne⟩
          · refine .inl ⟨bs, hstep.trans hb, ?_, ?_⟩
            · intro k1 a b h1 h2
              rcases List.mem_cons.1 h1 with he | ht
              · obtain ⟨he1, he2⟩ := Prod.mk.injEq .. ▸ he
                subst he1
                rw [hlook] at h2
                exact absurd h2 (by simp)
              · by_cases hkk : k = k1
                · subst hkk
                  rw [hlook] at h2
                  exact absurd h2 (by simp)
                · have h2' : lookupSeen ((k, l) :: seen) k1 = some b := by
                    simp only [lookupSeen, if_neg hkk]
                    exact h2
                  exact hsc k1 a b ht h2'
            · intro k1 a b h1 h2
              have hhead : ∀ c, (k, c) ∈ ps → c = l := by
                intro c hc
                exact hsc k c l hc (by simp [lookupSeen])
              rcases List.mem_cons.1 h1 with he | ht <;>
                rcases List.mem_cons.1 h2 with he2 | ht2
              · obtain ⟨x1, x2⟩ := Prod.mk.injEq .. ▸ he
                obtain ⟨y1, y2⟩ := Prod.mk.injEq .. ▸ he2
                rw [x2, y2]
              · obtain ⟨x1, x2⟩ := Prod.mk.injEq .. ▸ he
                subst x1
                rw [x2]
                exact (hhead b ht2).symm
              · obtain ⟨y1, y2⟩ := Prod.mk.injEq .. ▸ he2
                subst y1
                rw [y2]
                exact hhead a ht
              · exact hpc k1 a b ht ht2
          · exact .inr ⟨k1, a, b, hstep.trans hb, h1, h2, hne⟩

theorem readAll_length (lines : List String) (records : List (List String))
    (h : readAll lines = .ok records) : ∀ r ∈ records, r.length = 4 := by
  induction lines generalizing records with
  | nil =>
    unfold readAll at h
    injection h with h
    subst h
    intro r hr
    simp at hr
  | cons l rest ih =>
    unfold readAll at h
    by_cases hc : isCommentLine l = true
    · rw [if_pos hc] at h
      exact ih records h
    · rw [if_neg hc] at h
      by_cases he : l = ""
      · rw [if_pos he] at h
        exact ih records h
      · rw [if_neg he] at h
        by_cases h4 : (splitFields l).length = 4
        · rw [if_pos h4] at h
          cases hr : readAll rest with
          | error e => simp [hr] at h
          | ok rs =>
            simp only [hr] at h
            injection h with h
            subst h
            intro r hmem
            rcases List.mem_cons.1 hmem with hh | ht
            · rw [hh]; exact h4
            · exact ih rs hr r ht
        · rw [if_neg h4] at h
          simp at h

theorem readAll_error_of_bad_line (lines : List String) (line : String)
    (hmem : line ∈ lines) (hc : isCommentLine line = false) (hne : line ≠ "")
    (h4 : (splitFields line).length ≠ 4) : ∃ e, readAll lines = .error e := by
  induction lines with
  | nil => simp at hmem
  | cons l rest ih =>
    rcases List.mem_cons.1 hmem with he | ht
    · subst he
      refine ⟨.fieldCount line (splitFields line).length, ?_⟩
      unfold readAll
      rw [if_neg (by simp [hc]), if_neg hne, if_neg h4]
    · obtain ⟨e, he⟩ := ih ht
      unfold readAll
      by_cases hcl : isCommentLine l = true
      · exact ⟨e, by rw [if_pos hcl]; exact he⟩
      · by_cases hel : l = ""
        · exact ⟨e, by rw [if_neg hcl, if_pos hel]; exact he⟩
        · by_cases h4l : (splitFields l).length = 4
          · exact ⟨e, by rw [if_neg hcl, if_neg hel, if_pos h4l, he]⟩
          · exact ⟨.fieldCount l (splitFields l).length,
              by rw [if_neg hcl, if_neg hel, if_neg h4l]⟩

theorem readAll_skips_comments (lines : List String) :
    readAll lines = readAll (lines.filter fun x => !(isCommentLine x)) := by
  induction lines with
  | nil => rfl
  | cons l rest ih =>
    by_cases hc : isCommentLine l = true
    · have hf : List.filter (fun x => !(isCommentLine x)) (l :: rest) =
          List.filter (fun x => !(isCommentLine x)) rest := by
        simp [List.filter_cons, hc]
      rw [hf, ← ih]
      simp only [readAll]
      rw [if_pos hc]
    · have hf : List.filter (fun x => !(isCommentLine x)) (l :: rest) =
          l :: List.filter (fun x => !(isCommentLine x)) rest := by
        simp [List.filter_cons, hc]
      rw [hf]
      simp only [readAll]
      rw [ih]

theorem recGet_some (rec : List String) (i : Int) (h0 : 0 ≤ i)
    (hlen : i.toNat < rec.length) : ∃ s, recGet rec i = some s := by
  unfold recGet
  rw [if_neg (by omega)]
  exact ⟨rec.get ⟨i.toNat, hlen⟩, List.get?_eq_get hlen⟩

theorem recGet_none (rec : List String) (i : Int)
    (h : i < 0 ∨ (rec.length : Int) ≤ i) : recGet rec i = none := by
  unfold recGet
  rcases h with h | h
  · rw [if_pos h]
  · rw [if_neg (by omega)]
    exact List.get?_eq_none.2 (by omega)

theorem buildLoop_ne_panic (parse : String → Except String Label) (key value : Int)
    (records : List (List String)) (seen : List (String × Label)) (acc : List Binding)
    (hlen : ∀ r ∈ records, r.length = 4)
    (hk0 : 0 ≤ key) (hk4 : key < 4) (hv0 : 0 ≤ value) (hv4 : value < 4) :
    buildLoop parse key value records seen acc ≠ .panic := by
  revert hlen
  induction records generalizing seen acc with
  | nil =>
    intro _
    simp [buildLoop]
  | cons rec rest ih =>
    intro hlen
    have hr4 : rec.length = 4 := hlen rec (List.mem_cons_self _ _)
    have hltail : ∀ r ∈ rest, r.length = 4 :=
      fun r hr => hlen r (List.mem_cons_of_mem _ hr)
    obtain ⟨imp, hk⟩ := recGet_some rec key hk0 (by omega)
    obtain ⟨v, hv⟩ := recGet_some rec value hv0 (by omega)
    intro hcontra
    simp only [buildLoop, hk, hv] at hcontra
    cases hp : parse v with
    | error e => simp [hp] at hcontra
    | ok lbl =>
      simp only [hp] at hcontra
      cases hlook : lookupSeen seen imp with
      | some l2 =>
        simp only [hlook] at hcontra
        by_cases heq : Label.Equal l2 lbl = true
        · rw [if_pos heq] at hcontra
          exact ih seen acc hltail hcontra
        · rw [if_neg heq] at hcontra
          simp at hcontra
      | none =>
        simp only [hlook] at hcontra
        exact ih ((imp, lbl) :: seen) (acc ++ [⟨imp, lbl⟩]) hltail hcontra

theorem buildLoop_panic_out (parse : String → Except String Label) (key value : Int)
    (rec : List String) (rest : List (List String)) (seen : List (String × Label))
    (acc : List Binding) (hr4 : rec.length = 4)
    (hout : ¬(0 ≤ key ∧ key < 4) ∨ ¬(0 ≤ value ∧ value < 4)) :
    buildLoop parse key value (rec :: rest) seen acc = .panic := by
  by_cases hkr : 0 ≤ key ∧ key < 4
  · have hvout : ¬(0 ≤ value ∧ value < 4) := by tauto
    obtain ⟨imp, hk⟩ := recGet_some rec key hkr.1 (by omega)
    have hv : recGet rec value = none := recGet_none rec value (by omega)
    simp [buildLoop, hk, hv]
  · have hkn : recGet rec key = none := recGet_none rec key (by omega)
    simp [buildLoop, hkn]

theorem run_flag_err (cfg : Config) (h : ¬flagsSet cfg) :
    ∃ flag, ((flag = "-proto_csv" ∧ cfg.protoCsv = "") ∨
        (flag = "-known_imports" ∧ cfg.knownImports = "") ∨
        (flag = "-package" ∧ cfg.package_ = "") ∨
        (flag = "-var" ∧ cfg.var_ = "")) ∧
      ∀ (parse : String → Except String Label) (file : Option (List String)),
        run parse cfg file = ⟨.err (.flagNotSet flag), []⟩ := by
  by_cases hp : cfg.protoCsv = ""
  · exact ⟨"-proto_csv", .inl ⟨rfl, hp⟩, fun parse file => by simp [run, hp]⟩
  · by_cases hk : cfg.knownImports = ""
    · exact ⟨"-known_imports", .inr (.inl ⟨rfl, hk⟩), fun parse file => by simp [run, hp, hk]⟩
    · by_cases hpk : cfg.package_ = ""
      · exact ⟨"-package", .inr (.inr (.inl ⟨rfl, hpk⟩)),
          fun parse file => by simp [run, hp, hk, hpk]⟩
      · by_cases hv : cfg.var_ = ""
        · exact ⟨"-var", .inr (.inr (.inr ⟨rfl, hv⟩)),
            fun parse file => by simp [run, hp, hk, hpk, hv]⟩
        · exact absurd ⟨hp, hk, hpk, hv⟩ h

/-- Claim C1: for every input row sequence whose rows are all in range of the
selected columns and whose values parse, the binding builder returns the
(key-column, parsed value-column) pairs in first-occurrence order: a row
whose import key was already seen with an identical label appends nothing,
and when there are no duplicate keys the bindings are exactly the rows'
pairs in input order. -/
theorem C1_bindings_first_occurrence (parse : String → Except String Label)
    (key value : Int) (records : List (List String)) (pairs : List (String × Label))
    (hrows : rowsParsed parse key value records = some pairs)
    (hcons : pairsConsistent pairs = true) :
    buildLoop parse key value records [] [] = .ok ((specFirstOcc [] pairs).map toBinding)
    ∧ ((pairs.map Prod.fst).Nodup →
        buildLoop parse key value records [] [] = .ok (pairs.map toBinding)) := by
  have hc := (pairsConsistent_iff pairs).1 hcons
  have h1 := buildLoop_ok_of_consistent parse key value records pairs [] [] hrows hc
    (fun k l1 l2 _ h => by simp [lookupSeen] at h)
  constructor
  · simpa using h1
  · intro hnodup
    rw [specFirstOcc_eq_self [] pairs (fun k l _ => rfl) hnodup] at h1
    simpa using h1

/-- Witness for C1: a key repeated with an identical label is dropped, the
remaining bindings keep input order. -/
theorem C1_bindings_first_occurrence_witness :
    buildLoop specLabelParse 0 1
        [["a", "@r//p:x", "u", "w"], ["a", "@r//p:x", "u", "w"], ["b", "@r//q:y", "u", "w"]]
        [] []
      = .ok ((specFirstOcc []
          ([("a", ⟨"r", "p", "x"⟩), ("a", ⟨"r", "p", "x"⟩), ("b", ⟨"r", "q", "y"⟩)] :
            List (String × Label))).map toBinding) :=
  (C1_bindings_first_occurrence specLabelParse 0 1 _ _ (by decide) (by decide)).1

/-- Claim C2: an input that repeats an import key with two structurally
distinct parsed labels makes the binding builder fail with an error carrying
that key and both conflicting labels; the result is an error, not a binding
list. -/
theorem C2_conflict_reported (parse : String → Except String Label) (key value : Int)
    (records : List (List String)) (pairs : List (String × Label))
    (hrows : rowsParsed parse key value records = some pairs)
    (hconf : pairsConsistent pairs = false) :
    ∃ k l1 l2, buildLoop parse key value records [] [] = .err (.conflict k l1 l2) ∧
      (k, l1) ∈ pairs ∧ (k, l2) ∈ pairs ∧ l1 ≠ l2 := by
  rcases buildLoop_cases parse key value records pairs [] pairs []
      hrows (fun k l h => by simp at h) (fun p hp => hp) with
    ⟨bs, hb, hsc, hpc⟩ | ⟨k, a, b, hb, h1, h2, hne⟩
  · rw [(pairsConsistent_iff pairs).2 hpc] at hconf
    exact absurd hconf (by simp)
  · exact ⟨k, a, b, hb, h1, h2, hne⟩

/-- Witness for C2: the key "a" is bound to two distinct labels and the loop
reports a conflict naming it and both labels. -/
theorem C2_conflict_reported_witness :
    ∃ k l1 l2, buildLoop specLabelParse 0 1
        [["a", "@r//p:x", "u", "w"], ["a", "@r//p:y", "u", "w"]] [] []
      = .err (.conflict k l1 l2) ∧
      (k, l1) ∈ ([("a", ⟨"r", "p", "x"⟩), ("a", ⟨"r", "p", "y"⟩)] : List (String × Label)) ∧
      (k, l2) ∈ ([("a", ⟨"r", "p", "x"⟩), ("a", ⟨"r", "p", "y"⟩)] : List (String × Label)) ∧
      l1 ≠ l2 :=
  C2_conflict_reported specLabelParse 0 1 _ _ (by decide) (by decide)

/-- Claim C3: fail-fast, no partial output.  A write event in the trace
forces every prior stage — flag validation, open, read, binding build — to
have succeeded and the written bytes to be the rendering of the bindings;
conversely each failing stage's error becomes the run's result, with no
write in the trace.  (Template rendering is a total function of `data` here,
the fixed template cannot fail.) -/
theorem C3_fail_fast_no_partial_output (parse : String → Except String Label)
    (cfg : Config) (file : Option (List String)) :
    (∀ p c, Event.writeOutput p c ∈ (run parse cfg file).trace →
      ∃ lines records bs, flagsSet cfg ∧ file = some lines ∧
        readAll lines = .ok records ∧
        buildLoop parse cfg.key cfg.value records [] [] = .ok bs ∧
        p = cfg.knownImports ∧ c = render ⟨cfg.protoCsv, cfg.package_, cfg.var_, bs⟩ ∧
        (run parse cfg file).outcome = .ok (p, c))
    ∧ (∀ e, (run parse cfg file).outcome = .err e →
        ∀ p c, Event.writeOutput p c ∉ (run parse cfg file).trace)
    ∧ (∀ lines e, flagsSet cfg → file = some lines → readAll lines = .error e →
        (run parse cfg file).outcome = .err (.csvErr e))
    ∧ (∀ lines records e, flagsSet cfg → file = some lines →
        readAll lines = .ok records →
        buildLoop parse cfg.key cfg.value records [] [] = .err e →
        (run parse cfg file).outcome = .err e)
    ∧ (flagsSet cfg → file = none → (run parse cfg file).outcome = .err .openErr) := by
  refine ⟨?_, ?_, ?_, ?_, ?_⟩
  · intro p c hmem
    by_cases hf : flagsSet cfg
    · cases file with
      | none =>
        rw [run_open_err parse cfg hf] at hmem
        simp at hmem
      | some lines =>
        cases hr : readAll lines with
        | error e =>
          rw [run_read_err parse cfg lines e hf hr] at hmem
          simp at hmem
        | ok records =>
          cases hb : buildLoop parse cfg.key cfg.value records [] [] with
          | panic =>
            rw [run_build_panic parse cfg lines records hf hr hb] at hmem
            simp at hmem
          | err e =>
            rw [run_build_err parse cfg lines records e hf hr hb] at hmem
            simp at hmem
          | ok bs =>
            rw [run_ok parse cfg lines records bs hf hr hb] at hmem
            simp only [List.mem_cons, List.not_mem_nil, or_false] at hmem
            rcases hmem with h | h | h | h
            · exact absurd h (by simp)
            · exact absurd h (by simp)
            · exact absurd h (by simp)
            · injection h with hp hc
              exact ⟨lines, records, bs, hf, rfl, hr, hb, hp, hc, by
                rw [run_ok parse cfg lines records bs hf hr hb, hp, hc]⟩
    · obtain ⟨flag, _, hrun⟩ := run_flag_err cfg hf
      rw [hrun parse file] at hmem
      simp at hmem
  · intro e he p c hmem
    by_cases hf : flagsSet cfg
    · cases file with
      | none =>
        rw [run_open_err parse cfg hf] at hmem
        simp at hmem
      | some lines =>
        cases hr : readAll lines with
        | error e2 =>
          rw [run_read_err parse cfg lines e2 hf hr] at hmem
          simp at hmem
        | ok records =>
          cases hb : buildLoop parse cfg.key cfg.value records [] [] with
          | panic =>
            rw [run_build_panic parse cfg lines records hf hr hb] at hmem
            simp at hmem
          | err e2 =>
            rw [run_build_err parse cfg lines records e2 hf hr hb] at hmem
            simp at hmem
          | ok bs =>
            rw [run_ok parse cfg lines records bs hf hr hb] at he
            simp at he
    · obtain ⟨flag, _, hrun⟩ := run_flag_err cfg hf
      rw [hrun parse file] at hmem
      simp at hmem
  · intro lines e hf hfile hr
    subst hfile
    rw [run_read_err parse cfg lines e hf hr]
  · intro lines records e hf hfile hr hb
    subst hfile
    rw [run_build_err parse cfg lines records e hf hr hb]
  · intro hf hfile
    subst hfile
    rw [run_open_err parse cfg hf]

/-- Witness for C3: with all flags set and the input failing to open, the run
returns the open error (and, a fortiori, writes nothing). -/
theorem C3_fail_fast_no_partial_output_witness :
    (run specLabelParse ⟨"in.csv", "out.go", "p", "v", 0, 1⟩ none).outcome = .err .openErr :=
  (C3_fail_fast_no_partial_output specLabelParse ⟨"in.csv", "out.go", "p", "v", 0, 1⟩
    none).2.2.2.2 (by decide) rfl

/-- Claim C4: a non-comment, non-blank input line whose field count differs
from 4 makes the read fail with a format error, and the whole run aborts
with it, regardless of which key and value columns were selected. -/
theorem C4_field_count_error (lines : List String) (line : String)
    (hmem : line ∈ lines) (hc : isCommentLine line = false) (hne : line ≠ "")
    (h4 : (splitFields line).length ≠ 4) :
    ∃ e, readAll lines = .error e ∧
      ∀ (parse : String → Except String Label) (cfg : Config), flagsSet cfg →
        (run parse cfg (some lines)).outcome = .err (.csvErr e) := by
  obtain ⟨e, he⟩ := readAll_error_of_bad_line lines line hmem hc hne h4
  exact ⟨e, he, fun parse cfg hf => by rw [run_read_err parse cfg lines e hf he]⟩

/-- Witness for C4: a 3-field row aborts the read and the run. -/
theorem C4_field_count_error_witness :
    ∃ e, readAll ["a,b,c", "d,e,f,g"] = .error e ∧
      ∀ (parse : String → Except String Label) (cfg : Config), flagsSet cfg →
        (run parse cfg (some ["a,b,c", "d,e,f,g"])).outcome = .err (.csvErr e) :=
  C4_field_count_error ["a,b,c", "d,e,f,g"] ("a,b,c")
    (by decide) (by decide) (by decide) (by decide)

/-- Counterexample to C5 as stated: the line " #a,b,c,d" has `#` as its first
non-blank character, yet it is not excluded — it is parsed as an ordinary
4-field data row, because Go `encoding/csv` treats a line as a comment only
when the comment rune is its very first character, with no preceding
whitespace. -/
theorem C5_counterexample :
    ((" #a,b,c,d").toList.dropWhile fun c => c == ' ').head? = some '#' ∧
      isCommentLine (" #a,b,c,d") = false ∧
      readAll [" #a,b,c,d"] = .ok [[" #a", "b", "c", "d"]] := by
  refine ⟨by decide, by decide, by decide⟩

/-- Claim C5 as amended: lines whose *first character* is `#` (no preceding
whitespace) are comments: they are excluded entirely from the parsed rows,
wherever they appear among the data rows, and they are exempt from the
4-field requirement — reading behaves exactly as if every such line had been
deleted from the input beforehand. -/
theorem C5_comment_lines_skipped (lines : List String) :
    readAll lines = readAll (lines.filter fun x => !(isCommentLine x)) :=
  readAll_skips_comments lines

/-- Claim C6: determinism — two runs over the same flag values and the same
input file contents produce byte-identical output contents.  (In the
embedding the binding order comes from the appended `data.Bindings` list,
never from iterating the `seen` map, and the template is a pure function of
`data`, so the run is a function of its flags and file alone.) -/
theorem C6_deterministic (parse : String → Except String Label) (cfg : Config)
    (file : Option (List String)) (p1 c1 p2 c2 : String)
    (h1 : (run parse cfg file).outcome = .ok (p1, c1))
    (h2 : (run parse cfg file).outcome = .ok (p2, c2)) :
    p1 = p2 ∧ c1 = c2 := by
  rw [h1] at h2
  injection h2 with h2
  exact ⟨congrArg Prod.fst h2, congrArg Prod.snd h2⟩

set_option maxRecDepth 8192 in
/-- Witness for C6: a successful concrete run, compared with itself. -/
theorem C6_deterministic_witness :
    ("out.go" : String) = "out.go" ∧
      render ⟨"in.csv", "p", "v", [⟨"a", ⟨"r", "p", "x"⟩⟩]⟩ =
        render ⟨"in.csv", "p", "v", [⟨"a", ⟨"r", "p", "x"⟩⟩]⟩ :=
  C6_deterministic specLabelParse ⟨"in.csv", "out.go", "p", "v", 0, 1⟩
    (some ["a,@r//p:x,u,w"])
    "out.go" (render ⟨"in.csv", "p", "v", [⟨"a", ⟨"r", "p", "x"⟩⟩]⟩)
    "out.go" (render ⟨"in.csv", "p", "v", [⟨"a", ⟨"r", "p", "x"⟩⟩]⟩)
    (by decide) (by decide)

/-- Claim C7: an empty required flag makes the run fail with a configuration
error naming that flag, before any file I/O: the result is the same for
every file system and the I/O trace is empty. -/
theorem C7_flag_validation_before_io (cfg : Config)
    (h : cfg.protoCsv = "" ∨ cfg.knownImports = "" ∨ cfg.package_ = "" ∨ cfg.var_ = "") :
    ∃ flag, ((flag = "-proto_csv" ∧ cfg.protoCsv = "") ∨
        (flag = "-known_imports" ∧ cfg.knownImports = "") ∨
        (flag = "-package" ∧ cfg.package_ = "") ∨
        (flag = "-var" ∧ cfg.var_ = "")) ∧
      ∀ (parse : String → Except String Label) (file : Option (List String)),
        run parse cfg file = ⟨.err (.flagNotSet flag), []⟩ := by
  apply run_flag_err
  unfold flagsSet
  tauto

/-- Witness for C7: an empty `-proto_csv` flag. -/
theorem C7_flag_validation_before_io_witness :
    ∃ flag, ((flag = "-proto_csv" ∧ (⟨"", "o", "p", "v", 0, 1⟩ : Config).protoCsv = "") ∨
        (flag = "-known_imports" ∧ (⟨"", "o", "p", "v", 0, 1⟩ : Config).knownImports = "") ∨
        (flag = "-package" ∧ (⟨"", "o", "p", "v", 0, 1⟩ : Config).package_ = "") ∨
        (flag = "-var" ∧ (⟨"", "o", "p", "v", 0, 1⟩ : Config).var_ = "")) ∧
      ∀ (parse : String → Except String Label) (file : Option (List String)),
        run parse ⟨"", "o", "p", "v", 0, 1⟩ file = ⟨.err (.flagNotSet flag), []⟩ :=
  C7_flag_validation_before_io ⟨"", "o", "p", "v", 0, 1⟩ (.inl rfl)

/-- Claim C8: whenever the input file opens successfully, it is closed
exactly once, immediately after the read completes — on the successful and
the failing read path alike — and before any later stage: the trace begins
open, read, close, and whatever follows is at most the final write. -/
theorem C8_input_closed_once (parse : String → Except String Label) (cfg : Config)
    (lines : List String) (hf : flagsSet cfg) :
    ∃ rest, (run parse cfg (some lines)).trace =
        Event.openInput :: Event.readInput :: Event.closeInput :: rest ∧
      (∀ ev ∈ rest, ∃ p c, ev = Event.writeOutput p c) ∧
      (run parse cfg (some lines)).trace.count Event.closeInput = 1 := by
  cases hr : readAll lines with
  | error e =>
    rw [run_read_err parse cfg lines e hf hr]
    exact ⟨[], rfl, by simp, rfl⟩
  | ok records =>
    cases hb : buildLoop parse cfg.key cfg.value records [] [] with
    | panic =>
      rw [run_build_panic parse cfg lines records hf hr hb]
      exact ⟨[], rfl, by simp, rfl⟩
    | err e =>
      rw [run_build_err parse cfg lines records e hf hr hb]
      exact ⟨[], rfl, by simp, rfl⟩
    | ok bs =>
      rw [run_ok parse cfg lines records bs hf hr hb]
      refine ⟨[Event.writeOutput cfg.knownImports
          (render ⟨cfg.protoCsv, cfg.package_, cfg.var_, bs⟩)], rfl, ?_, ?_⟩
      · intro ev hev
        simp only [List.mem_singleton] at hev
        exact ⟨_, _, hev⟩
      · simp [List.count_cons, List.count_nil]

/-- Witness for C8: a concrete run whose read succeeds. -/
theorem C8_input_closed_once_witness :
    ∃ rest, (run specLabelParse ⟨"in.csv", "out.go", "p", "v", 0, 1⟩ (some ["#c"])).trace =
        Event.openInput :: Event.readInput :: Event.closeInput :: rest ∧
      (∀ ev ∈ rest, ∃ p c, ev = Event.writeOutput p c) ∧
      (run specLabelParse ⟨"in.csv", "out.go", "p", "v", 0, 1⟩
        (some ["#c"])).trace.count Event.closeInput = 1 :=
  C8_input_closed_once specLabelParse ⟨"in.csv", "out.go", "p", "v", 0, 1⟩ ["#c"] (by decide)

/-- Claim C9: record field access is unguarded, but safe for key and value
columns 0..3 because every record surviving the read has exactly 4 fields;
for any column outside 0..3 and a non-empty record list the loop — and the
whole run — ends in a panic rather than an error value. -/
theorem C9_unguarded_index (parse : String → Except String Label) (key value : Int)
    (lines : List String) (records : List (List String))
    (hr : readAll lines = .ok records) :
    ((0 ≤ key ∧ key < 4 ∧ 0 ≤ value ∧ value < 4) →
      buildLoop parse key value records [] [] ≠ .panic)
    ∧ (records ≠ [] → (key < 0 ∨ 4 ≤ key ∨ value < 0 ∨ 4 ≤ value) →
        buildLoop parse key value records [] [] = .panic ∧
        ∀ cfg : Config, flagsSet cfg → cfg.key = key → cfg.value = value →
          (run parse cfg (some lines)).outcome = .panic) := by
  have hlen := readAll_length lines records hr
  constructor
  · rintro ⟨h1, h2, h3, h4⟩
    exact buildLoop_ne_panic parse key value records [] [] hlen h1 h2 h3 h4
  · intro hne hout
    obtain ⟨rec, rest, rfl⟩ : ∃ rec rest, records = rec :: rest := by
      cases records with
      | nil => exact absurd rfl hne
      | cons a b => exact ⟨a, b, rfl⟩
    have hpanic := buildLoop_panic_out parse key value rec rest [] []
      (hlen rec (List.mem_cons_self _ _)) (by omega)
    refine ⟨hpanic, fun cfg hf hk hv => ?_⟩
    have hb : buildLoop parse cfg.key cfg.value (rec :: rest) [] [] = .panic := by
      rw [hk, hv]
      exact hpanic
    rw [run_build_panic parse cfg lines (rec :: rest) hf hr hb]

/-- Witness for C9: key column 5 on a 4-field record panics. -/
theorem C9_unguarded_index_witness :
    buildLoop specLabelParse 5 1 [["a", "@r//p:x", "u", "w"]] [] [] = .panic :=
  ((C9_unguarded_index specLabelParse 5 1 ["a,@r//p:x,u,w"] [["a", "@r//p:x", "u", "w"]]
      (by decide)).2 (by decide) (by decide)).1

/-- Claim C10: label parsing precedes the duplicate check — a row whose value
column fails to parse aborts the loop with that parse error even when the
row's key was already seen with an identical label, whatever the loop state;
only successfully parsed rows can be skipped as duplicates. -/
theorem C10_parse_error_wins (parse : String → Except String Label) (key value : Int)
    (rec : List String) (rest : List (List String)) (seen : List (String × Label))
    (acc : List Binding) (imp v e : String) (l : Label)
    (hk : recGet rec key = some imp) (hv : recGet rec value = some v)
    (hp : parse v = .error e) (_hs : lookupSeen seen imp = some l) :
    buildLoop parse key value (rec :: rest) seen acc = .err (.labelParseErr e) := by
  simp [buildLoop, hk, hv, hp]

/-- Witness for C10: "a" is already seen with the very label of its previous
row, yet the unparsable value aborts the loop with the parse error. -/
theorem C10_parse_error_wins_witness :
    buildLoop specLabelParse 0 1 [["a", "bad", "u", "w"]]
        [("a", ⟨"r", "p", "x"⟩)] []
      = .err (.labelParseErr ("label parse error: bad")) :=
  C10_parse_error_wins specLabelParse 0 1 ["a", "bad", "u", "w"] []
    [("a", ⟨"r", "p", "x"⟩)] [] ("a") ("bad") ("label parse error: bad") ⟨"r", "p", "x"⟩
    (by decide) (by decide) (by decide) (by decide)

end GenKnownImports
